import Mathlib

/-!
# Grade calculator (`backend/calculations/grade_calculator.c`)

A shallow embedding of the three computations of the grade calculator and of
its validator, with the properties of the specification proved about them.

## Numeric model

A C `double` is embedded as `Dbl`: a NaN, the two infinities, or a finite value
carried as a rational.  Comparisons follow IEEE 754 (every ordered comparison
with a NaN is false), and the two signed zeros are one value.  The C operators
`+` and `/` are `Dbl.add` and `Dbl.div`: the exact result of the operation on
finite values, rounded to binary64 by `Dbl.round64` (53 significant bits, round
to nearest, ties to even).  A C `int` is an `Int`; the counters of the code
never leave the 32-bit range (they are bounded by the number of loop
iterations), so no wrap-around is modelled.

Some properties are stated over exact real arithmetic.  For them
`calculate_class_statistics_exact` is the same loop with `Dbl.addExact` and
`Dbl.divExact`, the operations without the rounding; it is not what the compiled
code computes, and it agrees with `calculate_class_statistics` on every field
but `average`.
-/

namespace GradeCalculator

/-! ## Doubles -/

/-- The values of a C `double`: not-a-number, minus infinity, plus infinity, or
a finite number. -/
inductive Dbl where
  | nan : Dbl
  | ninf : Dbl
  | pinf : Dbl
  | fin (q : ℚ) : Dbl
deriving DecidableEq, Repr

namespace Dbl

/-- The C comparison `a < b` on doubles. -/
def lt : Dbl → Dbl → Bool
  | fin a, fin b => decide (a < b)
  | ninf, fin _ => true
  | ninf, pinf => true
  | fin _, pinf => true
  | _, _ => false

/-- The C comparison `a <= b` on doubles. -/
def le : Dbl → Dbl → Bool
  | fin a, fin b => decide (a ≤ b)
  | ninf, ninf => true
  | ninf, fin _ => true
  | ninf, pinf => true
  | fin _, pinf => true
  | pinf, pinf => true
  | _, _ => false

/-- The C comparison `a > b` on doubles. -/
def gt (a b : Dbl) : Bool := lt b a

/-- The C comparison `a >= b` on doubles. -/
def ge (a b : Dbl) : Bool := le b a

/-- The sum of two doubles without rounding: the real-number sum on finite
values, the IEEE results on the others. -/
def addExact : Dbl → Dbl → Dbl
  | fin a, fin b => fin (a + b)
  | nan, _ => nan
  | _, nan => nan
  | pinf, ninf => nan
  | ninf, pinf => nan
  | pinf, _ => pinf
  | _, pinf => pinf
  | ninf, _ => ninf
  | _, ninf => ninf

/-- The quotient of two doubles without rounding: the real-number quotient on
finite values, the IEEE results for a zero divisor and for infinite operands. -/
def divExact : Dbl → Dbl → Dbl
  | fin a, fin b =>
      if b = 0 then (if a = 0 then nan else if 0 < a then pinf else ninf)
      else fin (a / b)
  | nan, _ => nan
  | _, nan => nan
  | fin _, _ => fin 0
  | pinf, fin b => if 0 ≤ b then pinf else ninf
  | ninf, fin b => if 0 ≤ b then ninf else pinf
  | _, _ => nan

/-- The conversion of a C `int` to a `double` (exact on 32 bits). -/
def ofInt (n : Int) : Dbl := fin (n : ℚ)

/-- The `isnan` of `math.h`. -/
def isnan : Dbl → Bool
  | nan => true
  | _ => false

/-- The `isinf` of `math.h`. -/
def isinf : Dbl → Bool
  | pinf => true
  | ninf => true
  | _ => false

/-- The floor of the binary logarithm of `n` (0 for `n` below 2); the first
argument bounds the number of halvings. -/
def ilog2 : Nat → Nat → Nat
  | 0, _ => 0
  | fuel + 1, n => if 2 ≤ n then ilog2 fuel (n / 2) + 1 else 0

/-- The binary exponent of a non-zero rational: the `e` with
`2 ^ e ≤ |q| < 2 ^ (e + 1)`. -/
def binade (q : ℚ) : Int :=
  let e : Int := (ilog2 q.num.natAbs q.num.natAbs : Int) - (ilog2 q.den q.den : Int)
  if (2 : ℚ) ^ e ≤ |q| then e else e - 1

/-- The nearest integer, a tie going to the even one. -/
def roundHalfEven (m : ℚ) : Int :=
  let f : Int := Rat.floor m
  let r : ℚ := m - (f : ℚ)
  if r < 1 / 2 then f
  else if 1 / 2 < r then f + 1
  else if f % 2 = 0 then f else f + 1

/-- The binary64 value of an exact result: 53 significant bits, exponents from
-1022 (subnormals below), round to nearest with ties to even, overflow to the
infinity of the sign. -/
def round64 (q : ℚ) : Dbl :=
  if q = 0 then fin 0
  else
    let e : Int := max (binade q) (-1022)
    let ulp : ℚ := (2 : ℚ) ^ (e - 52)
    let r : ℚ := (roundHalfEven (q / ulp) : ℚ) * ulp
    if (2 : ℚ) ^ (1024 : Int) ≤ |r| then (if 0 < q then pinf else ninf) else fin r

/-- The C addition `a + b` on doubles: the sum of finite values rounded to
binary64. -/
def add : Dbl → Dbl → Dbl
  | fin a, fin b => round64 (a + b)
  | a, b => addExact a b

/-- The C division `a / b` on doubles: the quotient of finite values rounded
to binary64. -/
def div : Dbl → Dbl → Dbl
  | fin a, fin b => if b = 0 then divExact (fin a) (fin b) else round64 (a / b)
  | a, b => divExact a b

/-- A double denotes a real number of the closed interval from 0 to 10. -/
def inRange : Dbl → Bool
  | fin q => decide (0 ≤ q) && decide (q ≤ 10)
  | _ => false

/-- The real number a finite double denotes (0 for the others). -/
def val : Dbl → ℚ
  | fin q => q
  | _ => 0

end Dbl

/-! ## Final grade -/

/-- The `Grade` struct: a value and the flag `is_valid` (a C `int`, true when
non-zero). -/
structure Grade where
  value : Dbl
  is_valid : Int
deriving DecidableEq, Repr

/-- The function `calculate_final_grade`: the four guarded accumulations in
source order, then the test on `valid_count` and the division by 2. -/
def calculate_final_grade (np1 np2 ava pim : Grade) : Dbl :=
  let sum : Dbl := Dbl.fin 0
  let valid_count : Int := 0
  let (sum, valid_count) :=
    if decide (np1.is_valid ≠ 0) && Dbl.ge np1.value (Dbl.fin 0) && Dbl.le np1.value (Dbl.fin 10)
    then (Dbl.add sum np1.value, valid_count + 1) else (sum, valid_count)
  let (sum, valid_count) :=
    if decide (np2.is_valid ≠ 0) && Dbl.ge np2.value (Dbl.fin 0) && Dbl.le np2.value (Dbl.fin 10)
    then (Dbl.add sum np2.value, valid_count + 1) else (sum, valid_count)
  let (sum, valid_count) :=
    if decide (ava.is_valid ≠ 0) && Dbl.ge ava.value (Dbl.fin 0) && Dbl.le ava.value (Dbl.fin 10)
    then (Dbl.add sum ava.value, valid_count + 1) else (sum, valid_count)
  let (sum, valid_count) :=
    if decide (pim.is_valid ≠ 0) && Dbl.ge pim.value (Dbl.fin 0) && Dbl.le pim.value (Dbl.fin 10)
    then (Dbl.add sum pim.value, valid_count + 1) else (sum, valid_count)
  if valid_count < 2 then Dbl.fin (-1)
  else Dbl.div sum (Dbl.fin 2)

/-- A grade is counted: flagged valid and its value a real number of the closed
interval from 0 to 10. -/
def Grade.counted (g : Grade) : Bool := decide (g.is_valid ≠ 0) && g.value.inRange

/-- The number of counted grades of a list. -/
def countedNum (gs : List Grade) : Nat := (gs.filter Grade.counted).length

/-- The sum of a list of doubles as the code accumulates it: from 0.0, in
order, each addition rounded. -/
def runningSum (l : List Dbl) : Dbl := l.foldl Dbl.add (Dbl.fin 0)

/-- The values of the counted grades of a list, in order. -/
def countedValues (gs : List Grade) : List Dbl := (gs.filter Grade.counted).map Grade.value

/-! ## Validator and status -/

/-- The function `validate_grade`: the C conjunction, 1 when true and 0 when
false. -/
def validate_grade (grade : Dbl) : Int :=
  if Dbl.ge grade (Dbl.fin 0) && Dbl.le grade (Dbl.fin 10) && !Dbl.isnan grade && !Dbl.isinf grade
  then 1 else 0

/-- The function `get_student_status`: the cascade of comparisons in source
order. -/
def get_student_status (final_grade : Dbl) : String :=
  if Dbl.lt final_grade (Dbl.ofInt 0) then "em_andamento"
  else if Dbl.ge final_grade (Dbl.fin 7) then "aprovado"
  else if Dbl.ge final_grade (Dbl.fin 5) then "recuperacao"
  else "reprovado"

/-! ## Class statistics -/

/-- The `ClassStats` struct. -/
structure ClassStats where
  average : Dbl
  highest : Dbl
  lowest : Dbl
  total_students : Int
  approved_count : Int
deriving DecidableEq, Repr

/-- The local variables of `calculate_class_statistics` that the loop
updates. -/
structure ScanState where
  stats : ClassStats
  sum : Dbl
  valid_grades : Int
deriving DecidableEq, Repr

/-- The body of the loop of `calculate_class_statistics` on the entry
`grades[i]`. -/
def scan_step (g : Dbl) (st : ScanState) : ScanState :=
  if Dbl.ge g (Dbl.fin 0) && Dbl.le g (Dbl.fin 10) then
    let st : ScanState := { st with sum := Dbl.add st.sum g }
    let st : ScanState := { st with valid_grades := st.valid_grades + 1 }
    let st : ScanState :=
      if Dbl.gt g st.stats.highest || Dbl.lt st.stats.highest (Dbl.ofInt 0)
      then { st with stats := { st.stats with highest := g } } else st
    let st : ScanState :=
      if Dbl.lt g st.stats.lowest || Dbl.gt st.stats.lowest (Dbl.ofInt 10)
      then { st with stats := { st.stats with lowest := g } } else st
    let st : ScanState :=
      if Dbl.ge g (Dbl.fin 7)
      then { st with stats := { st.stats with approved_count := st.stats.approved_count + 1 } }
      else st
    st
  else st

/-- The loop `for (int i = 0; i < count; i++)` from the index `i` on; each
test of the condition takes one unit of fuel.  Reading `grades[i]` outside the
array has no result. -/
def scan_loop (grades : List Dbl) (count : Int) : Nat → Nat → ScanState → Option ScanState
  | 0, _, _ => none
  | fuel + 1, i, st =>
    if (i : Int) < count then
      match grades[i]? with
      | none => none
      | some g => scan_loop grades count fuel (i + 1) (scan_step g st)
    else some st

/-- The function `calculate_class_statistics`; the loop is given the fuel for
the `count + 1` tests of its condition. -/
def calculate_class_statistics (grades : List Dbl) (count : Int) : Option ClassStats :=
  let stats : ClassStats := ⟨Dbl.fin 0, Dbl.fin (-1), Dbl.fin 11, 0, 0⟩
  if count ≤ 0 then some stats
  else
    match scan_loop grades count (count.toNat + 1) 0 ⟨stats, Dbl.fin 0, 0⟩ with
    | none => none
    | some st =>
      let stats : ClassStats := { st.stats with total_students := st.valid_grades }
      let stats : ClassStats :=
        if 0 < st.valid_grades
        then { stats with average := Dbl.div st.sum (Dbl.ofInt st.valid_grades) }
        else stats
      some stats

/-- The body of the loop over exact arithmetic: `scan_step` with the sum not
rounded. -/
def scan_step_exact (g : Dbl) (st : ScanState) : ScanState :=
  if Dbl.ge g (Dbl.fin 0) && Dbl.le g (Dbl.fin 10) then
    let st : ScanState := { st with sum := Dbl.addExact st.sum g }
    let st : ScanState := { st with valid_grades := st.valid_grades + 1 }
    let st : ScanState :=
      if Dbl.gt g st.stats.highest || Dbl.lt st.stats.highest (Dbl.ofInt 0)
      then { st with stats := { st.stats with highest := g } } else st
    let st : ScanState :=
      if Dbl.lt g st.stats.lowest || Dbl.gt st.stats.lowest (Dbl.ofInt 10)
      then { st with stats := { st.stats with lowest := g } } else st
    let st : ScanState :=
      if Dbl.ge g (Dbl.fin 7)
      then { st with stats := { st.stats with approved_count := st.stats.approved_count + 1 } }
      else st
    st
  else st

/-- The loop over exact arithmetic: `scan_loop` with the body
`scan_step_exact`. -/
def scan_loop_exact (grades : List Dbl) (count : Int) :
    Nat → Nat → ScanState → Option ScanState
  | 0, _, _ => none
  | fuel + 1, i, st =>
    if (i : Int) < count then
      match grades[i]? with
      | none => none
      | some g => scan_loop_exact grades count fuel (i + 1) (scan_step_exact g st)
    else some st

/-- The function `calculate_class_statistics` over exact arithmetic: the sums
and the quotient not rounded. -/
def calculate_class_statistics_exact (grades : List Dbl) (count : Int) : Option ClassStats :=
  let stats : ClassStats := ⟨Dbl.fin 0, Dbl.fin (-1), Dbl.fin 11, 0, 0⟩
  if count ≤ 0 then some stats
  else
    match scan_loop_exact grades count (count.toNat + 1) 0 ⟨stats, Dbl.fin 0, 0⟩ with
    | none => none
    | some st =>
      let stats : ClassStats := { st.stats with total_students := st.valid_grades }
      let stats : ClassStats :=
        if 0 < st.valid_grades
        then { stats with average := Dbl.divExact st.sum (Dbl.ofInt st.valid_grades) }
        else stats
      some stats

/-- The values of the entries of a list that lie within 0 and 10, in order. -/
def validVals (l : List Dbl) : List ℚ := (l.filter Dbl.inRange).map Dbl.val

/-- The first `count` entries of an array. -/
def firstEntries (grades : List Dbl) (count : Int) : List Dbl := grades.take count.toNat

/-- The record and the locals of `calculate_class_statistics` before the
loop. -/
def scanInit : ScanState := ⟨⟨Dbl.fin 0, Dbl.fin (-1), Dbl.fin 11, 0, 0⟩, Dbl.fin 0, 0⟩

/-- The state of the loop after the entries of `l`, by their in-range values:
the running maximum from -1, the running minimum from 11, the number of values
from 7 on, the rounded running sum and the number of values. -/
def scanSpec (l : List Dbl) : ScanState :=
  ⟨⟨Dbl.fin 0, Dbl.fin ((validVals l).foldl max (-1)), Dbl.fin ((validVals l).foldl min 11), 0,
      (((validVals l).filter fun q => 7 ≤ q).length : Int)⟩,
    runningSum (l.filter Dbl.inRange), ((validVals l).length : Int)⟩

/-- The largest value of a C `int` (32 bits). -/
def INT_MAX : Int := 2147483647

/-! ## Shared lemmas -/

theorem Dbl.guard_eq_inRange (d : Dbl) :
    (Dbl.ge d (Dbl.fin 0) && Dbl.le d (Dbl.fin 10)) = d.inRange := by
  cases d <;> simp [Dbl.ge, Dbl.le, Dbl.inRange]

theorem Dbl.eq_fin_of_inRange {d : Dbl} (h : d.inRange = true) : d = Dbl.fin d.val := by
  cases d <;> simp_all [Dbl.inRange, Dbl.val]

theorem Dbl.val_bounds {d : Dbl} (h : d.inRange = true) : 0 ≤ d.val ∧ d.val ≤ 10 := by
  cases d <;> simp_all [Dbl.inRange, Dbl.val]

theorem Grade.guard_eq_counted (g : Grade) :
    (decide (g.is_valid ≠ 0) && Dbl.ge g.value (Dbl.fin 0) && Dbl.le g.value (Dbl.fin 10)) =
      g.counted := by
  rw [Bool.and_assoc, Dbl.guard_eq_inRange, Grade.counted]

theorem Grade.inRange_of_counted {g : Grade} (h : g.counted = true) :
    g.value.inRange = true := by
  simp only [Grade.counted, Bool.and_eq_true] at h
  exact h.2

/-! ## Rounding to binary64 -/

/-- The function `ilog2` brackets its argument between two powers of 2. -/
theorem Dbl.ilog2_bounds : ∀ (fuel n : Nat), 0 < n → n ≤ fuel →
    2 ^ Dbl.ilog2 fuel n ≤ n ∧ n < 2 ^ (Dbl.ilog2 fuel n + 1) := by
  intro fuel
  induction fuel with
  | zero => intro n h0 hn; omega
  | succ fuel ih =>
    intro n h0 hn
    by_cases h2 : 2 ≤ n
    · have hrec := ih (n / 2) (Nat.div_pos h2 (by decide)) (by omega)
      simp only [Dbl.ilog2, if_pos h2]
      have hdm := Nat.div_add_mod n 2
      have hmod : n % 2 < 2 := Nat.mod_lt n (by decide)
      constructor
      · rw [pow_succ]
        have := hrec.1
        omega
      · rw [pow_succ]
        have := hrec.2
        omega
    · simp only [Dbl.ilog2, if_neg h2]
      omega

/-- A positive rational below `2 ^ 53` has a binary exponent of at most 52. -/
theorem Dbl.binade_le (q : ℚ) (h0 : 0 < q) (hq : q < 2 ^ 53) : Dbl.binade q ≤ 52 := by
  have habs : |q| = q := abs_of_pos h0
  unfold Dbl.binade
  simp only
  split_ifs with hle
  · by_contra hcon
    have h53 : (53 : Int) ≤
        (Dbl.ilog2 q.num.natAbs q.num.natAbs : Int) - (Dbl.ilog2 q.den q.den : Int) := by omega
    have hpow : (2 : ℚ) ^ (53 : Int) ≤
        (2 : ℚ) ^ ((Dbl.ilog2 q.num.natAbs q.num.natAbs : Int) -
          (Dbl.ilog2 q.den q.den : Int)) :=
      zpow_le_zpow_right₀ (by norm_num) h53
    rw [habs] at hle
    have h53n : (2 : ℚ) ^ (53 : Int) = 2 ^ 53 := by norm_num
    linarith
  · by_contra hcon
    have hnum : 0 < q.num := Rat.num_pos.mpr h0
    have hnat : (q.num.natAbs : Int) = q.num := Int.natAbs_of_nonneg hnum.le
    have hnpos : 0 < q.num.natAbs := by omega
    have hn := (Dbl.ilog2_bounds q.num.natAbs q.num.natAbs hnpos (le_refl _)).1
    have hd := (Dbl.ilog2_bounds q.den q.den q.den_pos (le_refl _)).2
    have hab : Dbl.ilog2 q.den q.den + 1 + 53 ≤ Dbl.ilog2 q.num.natAbs q.num.natAbs := by omega
    have hp : 2 ^ (Dbl.ilog2 q.den q.den + 1) * 2 ^ 53 ≤ 2 ^ Dbl.ilog2 q.num.natAbs q.num.natAbs := by
      rw [← pow_add]
      exact Nat.pow_le_pow_right (by decide) hab
    have hbig : q.den * 2 ^ 53 ≤ q.num.natAbs := by
      have h1 : q.den * 2 ^ 53 ≤ 2 ^ (Dbl.ilog2 q.den q.den + 1) * 2 ^ 53 :=
        Nat.mul_le_mul_right _ hd.le
      exact le_trans (le_trans h1 hp) hn
    have hbigq : (q.den : ℚ) * 2 ^ 53 ≤ (q.num : ℚ) := by
      have h2 : ((q.den * 2 ^ 53 : Nat) : Int) ≤ q.num := by
        rw [← hnat]
        exact_mod_cast hbig
      have h3 : (((q.den * 2 ^ 53 : Nat) : Int) : ℚ) ≤ (q.num : ℚ) := by exact_mod_cast h2
      simpa using h3
    have hden : (0 : ℚ) < (q.den : ℚ) := by exact_mod_cast q.den_pos
    have hqeq : (q.num : ℚ) = q * (q.den : ℚ) := (Rat.mul_den_eq_num q).symm
    rw [hqeq] at hbigq
    have : (2 : ℚ) ^ 53 ≤ q := by
      by_contra hlt
      have hlt2 : q < 2 ^ 53 := lt_of_not_le hlt
      nlinarith
    linarith

theorem Dbl.roundHalfEven_nonneg (m : ℚ) (hm : 0 ≤ m) : 0 ≤ Dbl.roundHalfEven m := by
  have hf : (0 : Int) ≤ Rat.floor m := Rat.le_floor.mpr (by simpa using hm)
  unfold Dbl.roundHalfEven
  simp only
  split_ifs <;> omega

theorem Dbl.roundHalfEven_le (m : ℚ) (M : Int) (hm : m ≤ M) : Dbl.roundHalfEven m ≤ M := by
  have hfm : ((Rat.floor m : Int) : ℚ) ≤ m := Rat.le_floor.mp (le_refl _)
  have hfM : Rat.floor m ≤ M := by
    have : ((Rat.floor m : Int) : ℚ) ≤ (M : ℚ) := le_trans hfm hm
    exact_mod_cast this
  rcases lt_or_eq_of_le hfM with hlt | heq
  · unfold Dbl.roundHalfEven
    simp only
    split_ifs <;> omega
  · have hmeq : m = (M : ℚ) := le_antisymm hm (by rw [← heq]; exact hfm)
    unfold Dbl.roundHalfEven
    simp only
    rw [if_pos]
    · exact hfM
    · rw [heq, hmeq]
      norm_num

/-- Rounding does not cross an integer that binary64 represents: a result
between 0 and a natural number below `2 ^ 53` rounds to a finite value between
0 and that number. -/
theorem Dbl.round64_bounds (q : ℚ) (N : Nat) (h0 : 0 ≤ q) (hN : q ≤ N) (hrep : N < 2 ^ 53) :
    ∃ r : ℚ, Dbl.round64 q = Dbl.fin r ∧ 0 ≤ r ∧ r ≤ N := by
  rcases eq_or_lt_of_le h0 with hz | hpos
  · refine ⟨0, ?_, le_refl 0, by exact_mod_cast Nat.zero_le N⟩
    simp [Dbl.round64, ← hz]
  · have hNq : (N : ℚ) < 2 ^ 53 := by exact_mod_cast hrep
    have hb := Dbl.binade_le q hpos (lt_of_le_of_lt hN hNq)
    have he : max (Dbl.binade q) (-1022) ≤ 52 := max_le hb (by norm_num)
    obtain ⟨k, hk⟩ : ∃ k : Nat, (52 : Int) - max (Dbl.binade q) (-1022) = (k : Int) :=
      ⟨(52 - max (Dbl.binade q) (-1022)).toNat, by omega⟩
    have hulp : (2 : ℚ) ^ (max (Dbl.binade q) (-1022) - 52) = ((2 : ℚ) ^ k)⁻¹ := by
      have : max (Dbl.binade q) (-1022) - 52 = -(k : Int) := by omega
      rw [this, zpow_neg, zpow_natCast]
    have hkpos : (0 : ℚ) < (2 : ℚ) ^ k := by positivity
    have hm0 : 0 ≤ q / ((2 : ℚ) ^ k)⁻¹ := by positivity
    have hmM : q / ((2 : ℚ) ^ k)⁻¹ ≤ ((N * 2 ^ k : Nat) : Int) := by
      rw [div_inv_eq_mul]
      push_cast
      exact mul_le_mul_of_nonneg_right hN hkpos.le
    have hr0 := Dbl.roundHalfEven_nonneg _ hm0
    have hrM := Dbl.roundHalfEven_le _ _ hmM
    have hr0q : (0 : ℚ) ≤ (Dbl.roundHalfEven (q / ((2 : ℚ) ^ k)⁻¹) : ℚ) := by exact_mod_cast hr0
    have hrMq : (Dbl.roundHalfEven (q / ((2 : ℚ) ^ k)⁻¹) : ℚ) ≤ (N : ℚ) * 2 ^ k := by
      have : (Dbl.roundHalfEven (q / ((2 : ℚ) ^ k)⁻¹) : ℚ) ≤ (((N * 2 ^ k : Nat) : Int) : ℚ) := by
        exact_mod_cast hrM
      simpa using this
    have hres0 : 0 ≤ (Dbl.roundHalfEven (q / ((2 : ℚ) ^ k)⁻¹) : ℚ) * ((2 : ℚ) ^ k)⁻¹ := by
      positivity
    have hresN : (Dbl.roundHalfEven (q / ((2 : ℚ) ^ k)⁻¹) : ℚ) * ((2 : ℚ) ^ k)⁻¹ ≤ N := by
      rw [← div_eq_mul_inv, div_le_iff₀ hkpos]
      exact hrMq
    refine ⟨(Dbl.roundHalfEven (q / ((2 : ℚ) ^ k)⁻¹) : ℚ) * ((2 : ℚ) ^ k)⁻¹, ?_, hres0, hresN⟩
    have hfinite : ¬ (2 : ℚ) ^ (1024 : Int) ≤
        |(Dbl.roundHalfEven (q / ((2 : ℚ) ^ k)⁻¹) : ℚ) * ((2 : ℚ) ^ k)⁻¹| := by
      rw [abs_of_nonneg hres0]
      have hlarge : (2 : ℚ) ^ 53 < (2 : ℚ) ^ (1024 : Int) := by norm_num
      linarith
    unfold Dbl.round64
    simp only [if_neg (ne_of_gt hpos), hulp, if_neg hfinite]

/-- The C sum of a finite value between 0 and `N` and an in-range value is a
finite value between 0 and `N + 10`. -/
theorem Dbl.add_bounds (S : ℚ) (g : Dbl) (N : Nat) (hS0 : 0 ≤ S) (hSN : S ≤ N)
    (hg : g.inRange = true) (hrep : N + 10 < 2 ^ 53) :
    ∃ r : ℚ, Dbl.add (Dbl.fin S) g = Dbl.fin r ∧ 0 ≤ r ∧ r ≤ ((N + 10 : Nat) : ℚ) := by
  have hb := Dbl.val_bounds hg
  rw [Dbl.eq_fin_of_inRange hg]
  show ∃ r : ℚ, Dbl.round64 (S + g.val) = Dbl.fin r ∧ 0 ≤ r ∧ r ≤ ((N + 10 : Nat) : ℚ)
  refine Dbl.round64_bounds (S + g.val) (N + 10) (by linarith) ?_ hrep
  push_cast
  linarith

/-- The C quotient of a finite value between 0 and `B * n` by a positive `n`
is a finite value between 0 and `B`. -/
theorem Dbl.div_bounds (S n : ℚ) (B : Nat) (hn : 0 < n) (hS0 : 0 ≤ S) (hSB : S ≤ B * n)
    (hrep : B < 2 ^ 53) :
    ∃ r : ℚ, Dbl.div (Dbl.fin S) (Dbl.fin n) = Dbl.fin r ∧ 0 ≤ r ∧ r ≤ (B : ℚ) := by
  show ∃ r : ℚ, (if n = 0 then Dbl.divExact (Dbl.fin S) (Dbl.fin n) else Dbl.round64 (S / n)) =
    Dbl.fin r ∧ 0 ≤ r ∧ r ≤ (B : ℚ)
  rw [if_neg (ne_of_gt hn)]
  refine Dbl.round64_bounds (S / n) B (by positivity) ?_ hrep
  rw [div_le_iff₀ hn]
  exact hSB

/-! ## Final grade: the result in closed form -/

/-- The function `calculate_final_grade` by the counted grades: -1.0 below two
of them, else their running sum divided by 2. -/
theorem final_grade_eq (np1 np2 ava pim : Grade) :
    calculate_final_grade np1 np2 ava pim =
      if countedNum [np1, np2, ava, pim] < 2 then Dbl.fin (-1)
      else Dbl.div (runningSum (countedValues [np1, np2, ava, pim])) (Dbl.fin 2) := by
  unfold calculate_final_grade
  simp only [Grade.guard_eq_counted]
  cases h1 : np1.counted <;> cases h2 : np2.counted <;> cases h3 : ava.counted <;>
    cases h4 : pim.counted <;>
    simp [countedNum, countedValues, runningSum, List.filter, h1, h2, h3, h4]

theorem runningSum_append_singleton (l : List Dbl) (g : Dbl) :
    runningSum (l ++ [g]) = Dbl.add (runningSum l) g := by
  simp [runningSum, List.foldl_append]

/-- The running sum of in-range values is finite, between 0 and ten times their
number, as long as that bound is below `2 ^ 53`. -/
theorem runningSum_bounds (l : List Dbl) :
    (∀ g ∈ l, g.inRange = true) → 10 * l.length < 2 ^ 53 →
      ∃ S : ℚ, runningSum l = Dbl.fin S ∧ 0 ≤ S ∧ S ≤ ((10 * l.length : Nat) : ℚ) := by
  induction l using List.reverseRecOn with
  | nil =>
    intro _ _
    exact ⟨0, rfl, le_refl 0, by simp⟩
  | append_singleton l g ih =>
    intro hall hrep
    have hlen : (l ++ [g]).length = l.length + 1 := by simp
    rw [hlen] at hrep
    obtain ⟨S, hS, hS0, hSN⟩ := ih (fun x hx => hall x (List.mem_append_left _ hx)) (by omega)
    have hg : g.inRange = true := hall g (by simp)
    obtain ⟨r, hr, hr0, hrN⟩ := Dbl.add_bounds S g (10 * l.length) hS0 hSN hg (by omega)
    refine ⟨r, ?_, hr0, ?_⟩
    · rw [runningSum_append_singleton, hS, hr]
    · rw [hlen]
      have : 10 * (l.length + 1) = 10 * l.length + 10 := by ring
      rw [this]
      exact hrN

theorem countedValues_inRange (gs : List Grade) : ∀ g ∈ countedValues gs, g.inRange = true := by
  intro g hg
  simp only [countedValues, List.mem_map, List.mem_filter] at hg
  obtain ⟨x, ⟨_, hx⟩, rfl⟩ := hg
  exact Grade.inRange_of_counted hx

theorem countedValues_length (gs : List Grade) : (countedValues gs).length = countedNum gs := by
  simp [countedValues, countedNum]

theorem countedNum_le_length (gs : List Grade) : countedNum gs ≤ gs.length :=
  List.length_filter_le _ _

/-- The two outcomes of `calculate_final_grade`: the sentinel with fewer than
two counted grades, a finite value from 0 to 20 otherwise. -/
theorem final_grade_cases (np1 np2 ava pim : Grade) :
    (countedNum [np1, np2, ava, pim] < 2 ∧
      calculate_final_grade np1 np2 ava pim = Dbl.fin (-1)) ∨
    (2 ≤ countedNum [np1, np2, ava, pim] ∧
      ∃ r : ℚ, calculate_final_grade np1 np2 ava pim = Dbl.fin r ∧ 0 ≤ r ∧ r ≤ 20) := by
  rw [final_grade_eq]
  by_cases hc : countedNum [np1, np2, ava, pim] < 2
  · exact Or.inl ⟨hc, if_pos hc⟩
  · right
    refine ⟨Nat.not_lt.mp hc, ?_⟩
    rw [if_neg hc]
    have hlen : (countedValues [np1, np2, ava, pim]).length ≤ 4 := by
      rw [countedValues_length]
      exact countedNum_le_length [np1, np2, ava, pim]
    obtain ⟨S, hS, hS0, hSN⟩ := runningSum_bounds (countedValues [np1, np2, ava, pim])
      (countedValues_inRange _) (by omega)
    have hS40 : S ≤ 40 := by
      have h1 : ((10 * (countedValues [np1, np2, ava, pim]).length : Nat) : ℚ) ≤ ((40 : Nat) : ℚ) := by
        exact_mod_cast (by omega : 10 * (countedValues [np1, np2, ava, pim]).length ≤ 40)
      have h2 : ((40 : Nat) : ℚ) = 40 := by norm_num
      linarith
    obtain ⟨r, hr, hr0, hr20⟩ := Dbl.div_bounds S 2 20 (by norm_num) hS0
      (by push_cast; linarith) (by norm_num)
    refine ⟨r, ?_, hr0, by simpa using hr20⟩
    rw [hS, hr]

/-! ## Final grade: the claims -/

/-- C2: when fewer than two of the four grades are counted,
`calculate_final_grade` returns exactly -1.0. -/
theorem calculate_final_grade_insufficient (np1 np2 ava pim : Grade)
    (h : countedNum [np1, np2, ava, pim] < 2) :
    calculate_final_grade np1 np2 ava pim = Dbl.fin (-1) := by
  rw [final_grade_eq, if_pos h]

/-- One counted grade among a grade above 10, a grade flagged invalid and a
NaN: the result is -1.0. -/
theorem calculate_final_grade_insufficient_witness :
    countedNum [⟨Dbl.fin 5, 1⟩, ⟨Dbl.fin 11, 1⟩, ⟨Dbl.fin 3, 0⟩, ⟨Dbl.nan, 1⟩] < 2 ∧
    calculate_final_grade ⟨Dbl.fin 5, 1⟩ ⟨Dbl.fin 11, 1⟩ ⟨Dbl.fin 3, 0⟩ ⟨Dbl.nan, 1⟩ =
      Dbl.fin (-1) := by
  have hc : countedNum [⟨Dbl.fin 5, 1⟩, ⟨Dbl.fin 11, 1⟩, ⟨Dbl.fin 3, 0⟩, ⟨Dbl.nan, 1⟩] < 2 := by
    norm_num [countedNum, List.filter, Grade.counted, Dbl.inRange]
  exact ⟨hc, calculate_final_grade_insufficient _ _ _ _ hc⟩

/-- C3: a grade contributes to `calculate_final_grade` only if it is counted:
replacing each grade that is not counted (flagged invalid, or value outside 0
to 10) by any other grade that is not counted leaves the result unchanged. -/
theorem calculate_final_grade_uncounted_irrelevant
    (np1 np2 ava pim np1r np2r avar pimr : Grade)
    (h1 : np1r = np1 ∨ (np1.counted = false ∧ np1r.counted = false))
    (h2 : np2r = np2 ∨ (np2.counted = false ∧ np2r.counted = false))
    (h3 : avar = ava ∨ (ava.counted = false ∧ avar.counted = false))
    (h4 : pimr = pim ∨ (pim.counted = false ∧ pimr.counted = false)) :
    calculate_final_grade np1r np2r avar pimr = calculate_final_grade np1 np2 ava pim := by
  rw [final_grade_eq, final_grade_eq]
  rcases h1 with rfl | ⟨a1, b1⟩ <;> rcases h2 with rfl | ⟨a2, b2⟩ <;>
    rcases h3 with rfl | ⟨a3, b3⟩ <;> rcases h4 with rfl | ⟨a4, b4⟩ <;>
    simp [countedNum, countedValues, List.filter, *]

/-- The second sample of `main`: an invalid -1.0 and an out-of-range 11.0 may be
replaced by an invalid 0.0 each, and the result is (9.0 + 8.0) / 2 = 8.5. -/
theorem calculate_final_grade_uncounted_irrelevant_witness :
    calculate_final_grade ⟨Dbl.fin 0, 0⟩ ⟨Dbl.fin 0, 0⟩ ⟨Dbl.fin 9, 1⟩ ⟨Dbl.fin 8, 1⟩ =
      calculate_final_grade ⟨Dbl.fin (-1), 0⟩ ⟨Dbl.fin 11, 1⟩ ⟨Dbl.fin 9, 1⟩ ⟨Dbl.fin 8, 1⟩ ∧
    calculate_final_grade ⟨Dbl.fin (-1), 0⟩ ⟨Dbl.fin 11, 1⟩ ⟨Dbl.fin 9, 1⟩ ⟨Dbl.fin 8, 1⟩ =
      Dbl.fin (17/2) := by
  constructor
  · exact calculate_final_grade_uncounted_irrelevant
      ⟨Dbl.fin (-1), 0⟩ ⟨Dbl.fin 11, 1⟩ ⟨Dbl.fin 9, 1⟩ ⟨Dbl.fin 8, 1⟩
      ⟨Dbl.fin 0, 0⟩ ⟨Dbl.fin 0, 0⟩ ⟨Dbl.fin 9, 1⟩ ⟨Dbl.fin 8, 1⟩
      (Or.inr (by norm_num [Grade.counted, Dbl.inRange]))
      (Or.inr (by norm_num [Grade.counted, Dbl.inRange]))
      (Or.inl rfl) (Or.inl rfl)
  · decide!

/-! ## Status and validator: the claims -/

/-- C4: on every real final grade `get_student_status` follows the decision
table: "em_andamento" exactly below 0, "aprovado" exactly from 7.0 on,
"recuperacao" exactly from 5.0 up to but excluding 7.0, "reprovado" exactly from
0 up to but excluding 5.0; so on -1.0, 7.0, 5.0 and 4.99 it returns the four
labels in this order. -/
theorem get_student_status_table :
    (∀ x : ℚ,
      (get_student_status (Dbl.fin x) = "em_andamento" ↔ x < 0) ∧
      (get_student_status (Dbl.fin x) = "aprovado" ↔ 7 ≤ x) ∧
      (get_student_status (Dbl.fin x) = "recuperacao" ↔ 5 ≤ x ∧ x < 7) ∧
      (get_student_status (Dbl.fin x) = "reprovado" ↔ 0 ≤ x ∧ x < 5)) ∧
    get_student_status (Dbl.fin (-1)) = "em_andamento" ∧
    get_student_status (Dbl.fin 7) = "aprovado" ∧
    get_student_status (Dbl.fin 5) = "recuperacao" ∧
    get_student_status (Dbl.fin (499/100)) = "reprovado" := by
  refine ⟨fun x => ?_, ?_, ?_, ?_, ?_⟩
  · simp only [get_student_status, Dbl.lt, Dbl.ge, Dbl.le, Dbl.ofInt, Int.cast_zero,
      decide_eq_true_eq]
    by_cases h0 : x < 0
    · have h7 : ¬ (7 : ℚ) ≤ x := by linarith
      have h5 : ¬ (5 : ℚ) ≤ x := by linarith
      simp [h0, h7, h5]
    · by_cases h7 : (7 : ℚ) ≤ x
      · have h5 : (5 : ℚ) ≤ x := by linarith
        simp [h0, h7, h5]
      · by_cases h5 : (5 : ℚ) ≤ x
        · simp [h0, h7, h5]
          exact lt_of_not_le h7
        · simp [h0, h7, h5]
          exact ⟨le_of_not_lt h0, lt_of_not_le h5⟩
  all_goals norm_num [get_student_status, Dbl.lt, Dbl.ge, Dbl.le, Dbl.ofInt]

/-- C5: `validate_grade` returns true (non-zero) exactly on the finite numbers
of the closed interval from 0 to 10: true on 10.0, false on 10.01, on NaN and on
plus infinity. -/
theorem validate_grade_iff :
    (∀ grade : Dbl,
      validate_grade grade ≠ 0 ↔ ∃ q : ℚ, grade = Dbl.fin q ∧ 0 ≤ q ∧ q ≤ 10) ∧
    validate_grade (Dbl.fin 10) = 1 ∧
    validate_grade (Dbl.fin (1001/100)) = 0 ∧
    validate_grade Dbl.nan = 0 ∧
    validate_grade Dbl.pinf = 0 := by
  refine ⟨fun grade => ?_, ?_, ?_, ?_, ?_⟩
  · cases grade <;> simp [validate_grade, Dbl.ge, Dbl.le, Dbl.isnan, Dbl.isinf]
  all_goals norm_num [validate_grade, Dbl.ge, Dbl.le, Dbl.isnan, Dbl.isinf]

/-! ## Class statistics: the loop -/

theorem validVals_append_singleton (l : List Dbl) (g : Dbl) :
    validVals (l ++ [g]) = validVals l ++ (if g.inRange then [g.val] else []) := by
  by_cases h : g.inRange = true <;> simp [validVals, List.filter_append, List.filter, h]

theorem scan_step_outside (g : Dbl) (st : ScanState) (h : g.inRange = false) :
    scan_step g st = st := by
  simp [scan_step, Dbl.guard_eq_inRange, h]

theorem scan_step_fin (q : ℚ) (hq : 0 ≤ q ∧ q ≤ 10) (avg S : Dbl) (h m : ℚ) (t c n : Int) :
    scan_step (Dbl.fin q) ⟨⟨avg, Dbl.fin h, Dbl.fin m, t, c⟩, S, n⟩ =
      ⟨⟨avg, Dbl.fin (if h < q ∨ h < 0 then q else h),
          Dbl.fin (if q < m ∨ 10 < m then q else m), t, if 7 ≤ q then c + 1 else c⟩,
        Dbl.add S (Dbl.fin q), n + 1⟩ := by
  by_cases c1 : h < q ∨ h < 0 <;> by_cases c2 : q < m ∨ 10 < m <;> by_cases c3 : (7 : ℚ) ≤ q <;>
    simp [scan_step, Dbl.ge, Dbl.le, Dbl.gt, Dbl.lt, Dbl.ofInt, hq.1, hq.2, c1, c2, c3]

theorem running_max_step (h q : ℚ) (hq : 0 ≤ q) :
    (if h < q ∨ h < 0 then q else h) = max h q := by
  by_cases c : h < q ∨ h < 0
  · rw [if_pos c]
    rcases c with c | c
    · exact (max_eq_right (le_of_lt c)).symm
    · exact (max_eq_right (le_trans (le_of_lt c) hq)).symm
  · rw [if_neg c]
    exact (max_eq_left (le_of_not_lt fun hlt => c (Or.inl hlt))).symm

theorem running_min_step (m q : ℚ) (hq : q ≤ 10) :
    (if q < m ∨ 10 < m then q else m) = min m q := by
  by_cases c : q < m ∨ 10 < m
  · rw [if_pos c]
    rcases c with c | c
    · exact (min_eq_right (le_of_lt c)).symm
    · exact (min_eq_right (le_trans hq (le_of_lt c))).symm
  · rw [if_neg c]
    exact (min_eq_left (le_of_not_lt fun hlt => c (Or.inl hlt))).symm

theorem scan_fold_eq (l : List Dbl) :
    l.foldl (fun st g => scan_step g st) scanInit = scanSpec l := by
  induction l using List.reverseRecOn with
  | nil => simp [scanSpec, scanInit, validVals, runningSum]
  | append_singleton l g ih =>
    rw [List.foldl_append, ih]
    by_cases h : g.inRange = true
    · obtain ⟨q, rfl⟩ : ∃ q, g = Dbl.fin q := ⟨g.val, Dbl.eq_fin_of_inRange h⟩
      have hq : 0 ≤ q ∧ q ≤ 10 := by simpa [Dbl.inRange] using h
      have hf : List.filter Dbl.inRange (l ++ [Dbl.fin q]) =
          List.filter Dbl.inRange l ++ [Dbl.fin q] := by
        simp [List.filter_append, List.filter, h]
      simp only [List.foldl_cons, List.foldl_nil, scanSpec, scan_step_fin q hq,
        validVals_append_singleton, h, if_true, Dbl.val, List.foldl_append,
        List.filter_append, List.sum_append, List.length_append, hf,
        runningSum_append_singleton]
      rw [running_max_step _ q hq.1, running_min_step _ q hq.2]
      by_cases c3 : (7 : ℚ) ≤ q <;> simp [List.filter, c3]
    · simp only [Bool.not_eq_true] at h
      have hf : List.filter Dbl.inRange (l ++ [g]) = List.filter Dbl.inRange l := by
        simp [List.filter_append, List.filter, h]
      simp [scan_step_outside _ _ h, scanSpec, validVals_append_singleton, h, hf]

theorem scan_loop_eq (grades : List Dbl) (n : Nat) (hn : n ≤ grades.length) :
    ∀ (k i : Nat) (st : ScanState), i + k = n →
      scan_loop grades (n : Int) (k + 1) i st =
        some (((grades.take n).drop i).foldl (fun st g => scan_step g st) st) := by
  intro k
  induction k with
  | zero =>
    intro i st hi
    have hin : i = n := by omega
    subst hin
    have hd : List.drop i (List.take i grades) = [] :=
      List.drop_eq_nil_of_le (by rw [List.length_take]; omega)
    simp [scan_loop, hd]
  | succ k ih =>
    intro i st hi
    have hlt : i < n := by omega
    have hil : i < grades.length := by omega
    have hit : i < (grades.take n).length := by
      rw [List.length_take]; omega
    have hget : (grades.take n)[i] = grades[i] := by
      simp [List.getElem_take]
    rw [scan_loop, if_pos (by exact_mod_cast hlt), List.getElem?_eq_getElem hil]
    simp only
    rw [ih (i + 1) _ (by omega), List.drop_eq_getElem_cons hit, List.foldl_cons, hget]

/-- The record `calculate_class_statistics` returns for a positive `count`
within the array, by the in-range entries among the first `count`. -/
theorem class_statistics_eq (grades : List Dbl) (count : Int) (h0 : 0 < count)
    (hlen : count ≤ grades.length) :
    calculate_class_statistics grades count =
      some ⟨if 0 < (validVals (firstEntries grades count)).length
            then Dbl.div (runningSum ((firstEntries grades count).filter Dbl.inRange))
              (Dbl.ofInt ((validVals (firstEntries grades count)).length : Int))
            else Dbl.fin 0,
          Dbl.fin ((validVals (firstEntries grades count)).foldl max (-1)),
          Dbl.fin ((validVals (firstEntries grades count)).foldl min 11),
          ((validVals (firstEntries grades count)).length : Int),
          ((((validVals (firstEntries grades count)).filter fun q => 7 ≤ q).length : Nat) : Int)⟩ := by
  obtain ⟨n, rfl⟩ : ∃ n : Nat, count = (n : Int) := ⟨count.toNat, (Int.toNat_of_nonneg h0.le).symm⟩
  have hn : n ≤ grades.length := by exact_mod_cast hlen
  have hloop := scan_loop_eq grades n hn n 0 scanInit (by omega)
  rw [List.drop_zero, scan_fold_eq] at hloop
  unfold calculate_class_statistics
  rw [if_neg (by omega)]
  simp only [Int.toNat_ofNat]
  rw [show (⟨⟨Dbl.fin 0, Dbl.fin (-1), Dbl.fin 11, 0, 0⟩, Dbl.fin 0, 0⟩ : ScanState) = scanInit
    from rfl, hloop]
  simp only [scanSpec, firstEntries, Int.toNat_ofNat]
  by_cases hv : 0 < (validVals (List.take n grades)).length
  · have hv2 : (0 : Int) < ((validVals (List.take n grades)).length : Int) := by exact_mod_cast hv
    simp only [if_pos hv, if_pos hv2]
  · have hv2 : ¬ (0 : Int) < ((validVals (List.take n grades)).length : Int) := by
      exact_mod_cast hv
    simp only [if_neg hv, if_neg hv2]

/-- The early return of `calculate_class_statistics`. -/
theorem early_return_eq (grades : List Dbl) (count : Int)
    (h : count ≤ 0) :
    calculate_class_statistics grades count =
      some ⟨Dbl.fin 0, Dbl.fin (-1), Dbl.fin 11, 0, 0⟩ := by
  simp [calculate_class_statistics, h]

/-! ## Class statistics over exact arithmetic: the loop -/

theorem scan_step_exact_outside (g : Dbl) (st : ScanState) (h : g.inRange = false) :
    scan_step_exact g st = st := by
  simp [scan_step_exact, Dbl.guard_eq_inRange, h]

theorem scan_step_exact_fin (q : ℚ) (hq : 0 ≤ q ∧ q ≤ 10) (avg : Dbl) (h m S : ℚ)
    (t c n : Int) :
    scan_step_exact (Dbl.fin q) ⟨⟨avg, Dbl.fin h, Dbl.fin m, t, c⟩, Dbl.fin S, n⟩ =
      ⟨⟨avg, Dbl.fin (if h < q ∨ h < 0 then q else h),
          Dbl.fin (if q < m ∨ 10 < m then q else m), t, if 7 ≤ q then c + 1 else c⟩,
        Dbl.fin (S + q), n + 1⟩ := by
  by_cases c1 : h < q ∨ h < 0 <;> by_cases c2 : q < m ∨ 10 < m <;> by_cases c3 : (7 : ℚ) ≤ q <;>
    simp [scan_step_exact, Dbl.ge, Dbl.le, Dbl.gt, Dbl.lt, Dbl.addExact, Dbl.ofInt, hq.1, hq.2,
      c1, c2, c3]

/-- Over exact arithmetic the loop differs from `scanSpec` in the sum only,
which is the real-number sum of the in-range values. -/
theorem scan_fold_exact_eq (l : List Dbl) :
    l.foldl (fun st g => scan_step_exact g st) scanInit =
      ⟨(scanSpec l).stats, Dbl.fin (validVals l).sum, (scanSpec l).valid_grades⟩ := by
  induction l using List.reverseRecOn with
  | nil => simp [scanSpec, scanInit, validVals]
  | append_singleton l g ih =>
    rw [List.foldl_append, ih]
    by_cases h : g.inRange = true
    · obtain ⟨q, rfl⟩ : ∃ q, g = Dbl.fin q := ⟨g.val, Dbl.eq_fin_of_inRange h⟩
      have hq : 0 ≤ q ∧ q ≤ 10 := by simpa [Dbl.inRange] using h
      simp only [List.foldl_cons, List.foldl_nil, scanSpec, scan_step_exact_fin q hq,
        validVals_append_singleton, h, if_true, Dbl.val, List.foldl_append,
        List.filter_append, List.sum_append, List.length_append]
      rw [running_max_step _ q hq.1, running_min_step _ q hq.2]
      by_cases c3 : (7 : ℚ) ≤ q <;> simp [List.filter, c3]
    · simp only [Bool.not_eq_true] at h
      simp [scan_step_exact_outside _ _ h, scanSpec, validVals_append_singleton, h]

theorem scan_loop_exact_eq (grades : List Dbl) (n : Nat) (hn : n ≤ grades.length) :
    ∀ (k i : Nat) (st : ScanState), i + k = n →
      scan_loop_exact grades (n : Int) (k + 1) i st =
        some (((grades.take n).drop i).foldl (fun st g => scan_step_exact g st) st) := by
  intro k
  induction k with
  | zero =>
    intro i st hi
    have hin : i = n := by omega
    subst hin
    have hd : List.drop i (List.take i grades) = [] :=
      List.drop_eq_nil_of_le (by rw [List.length_take]; omega)
    simp [scan_loop_exact, hd]
  | succ k ih =>
    intro i st hi
    have hlt : i < n := by omega
    have hil : i < grades.length := by omega
    have hit : i < (grades.take n).length := by
      rw [List.length_take]; omega
    have hget : (grades.take n)[i] = grades[i] := by
      simp [List.getElem_take]
    rw [scan_loop_exact, if_pos (by exact_mod_cast hlt), List.getElem?_eq_getElem hil]
    simp only
    rw [ih (i + 1) _ (by omega), List.drop_eq_getElem_cons hit, List.foldl_cons, hget]

/-- The record `calculate_class_statistics_exact` returns for a positive
`count` within the array, by the in-range values of the first `count`
entries. -/
theorem class_statistics_exact_eq (grades : List Dbl) (count : Int) (h0 : 0 < count)
    (hlen : count ≤ grades.length) :
    calculate_class_statistics_exact grades count =
      some ⟨if 0 < (validVals (firstEntries grades count)).length
            then Dbl.fin ((validVals (firstEntries grades count)).sum /
              (validVals (firstEntries grades count)).length)
            else Dbl.fin 0,
          Dbl.fin ((validVals (firstEntries grades count)).foldl max (-1)),
          Dbl.fin ((validVals (firstEntries grades count)).foldl min 11),
          ((validVals (firstEntries grades count)).length : Int),
          ((((validVals (firstEntries grades count)).filter fun q => 7 ≤ q).length : Nat) : Int)⟩ := by
  obtain ⟨n, rfl⟩ : ∃ n : Nat, count = (n : Int) := ⟨count.toNat, (Int.toNat_of_nonneg h0.le).symm⟩
  have hn : n ≤ grades.length := by exact_mod_cast hlen
  have hloop := scan_loop_exact_eq grades n hn n 0 scanInit (by omega)
  rw [List.drop_zero, scan_fold_exact_eq] at hloop
  unfold calculate_class_statistics_exact
  rw [if_neg (by omega)]
  simp only [Int.toNat_ofNat]
  rw [show (⟨⟨Dbl.fin 0, Dbl.fin (-1), Dbl.fin 11, 0, 0⟩, Dbl.fin 0, 0⟩ : ScanState) = scanInit
    from rfl, hloop]
  simp only [scanSpec, firstEntries, Int.toNat_ofNat]
  by_cases hv : 0 < (validVals (List.take n grades)).length
  · have hne : validVals (List.take n grades) ≠ [] := List.ne_nil_of_length_pos hv
    simp [hv, Dbl.divExact, Dbl.ofInt, hne]
  · simp [hv]

/-- The two readings of the arithmetic give records that differ in `average`
only. -/
theorem class_statistics_exact_fields (grades : List Dbl) (count : Int) (h0 : 0 < count)
    (hlen : count ≤ grades.length) :
    ∃ s e, calculate_class_statistics grades count = some s ∧
      calculate_class_statistics_exact grades count = some e ∧
      s.highest = e.highest ∧ s.lowest = e.lowest ∧
      s.total_students = e.total_students ∧ s.approved_count = e.approved_count :=
  ⟨_, _, class_statistics_eq grades count h0 hlen,
    class_statistics_exact_eq grades count h0 hlen, rfl, rfl, rfl, rfl⟩

/-! ## Lists of in-range values -/

theorem validVals_length (l : List Dbl) :
    (validVals l).length = (l.filter Dbl.inRange).length := by
  simp [validVals]

theorem mem_validVals {l : List Dbl} {x : ℚ} :
    x ∈ validVals l ↔ Dbl.fin x ∈ l ∧ 0 ≤ x ∧ x ≤ 10 := by
  simp only [validVals, List.mem_map, List.mem_filter]
  constructor
  · rintro ⟨g, ⟨hg, hr⟩, rfl⟩
    have hq := Dbl.eq_fin_of_inRange hr
    rw [hq] at hr
    rw [← hq]
    exact ⟨hg, by simpa [Dbl.inRange] using hr⟩
  · rintro ⟨hg, h0, h10⟩
    exact ⟨Dbl.fin x, ⟨hg, by simp [Dbl.inRange, h0, h10]⟩, rfl⟩

theorem approved_length (l : List Dbl) :
    ((validVals l).filter fun q => 7 ≤ q).length =
      (l.filter fun g => g.inRange && Dbl.ge g (Dbl.fin 7)).length := by
  induction l with
  | nil => simp [validVals]
  | cons g l ih =>
    have hcons : validVals (g :: l) = (if g.inRange then [g.val] else []) ++ validVals l := by
      by_cases h : g.inRange = true <;> simp [validVals, List.filter_cons, h]
    rw [hcons, List.filter_append, List.length_append, ih, List.filter_cons]
    cases g with
    | fin q =>
      by_cases h : (Dbl.fin q).inRange = true <;> by_cases h7 : (7 : ℚ) ≤ q <;>
        simp [h, h7, Dbl.ge, Dbl.le, Dbl.val, List.filter_cons]
      omega
    | _ => simp [Dbl.inRange]

theorem foldl_max_init_le (l : List ℚ) : ∀ a : ℚ, a ≤ l.foldl max a := by
  induction l with
  | nil => intro a; exact le_refl a
  | cons x l ih => intro a; exact le_trans (le_max_left a x) (ih (max a x))

theorem foldl_max_mem_le (l : List ℚ) : ∀ (a x : ℚ), x ∈ l → x ≤ l.foldl max a := by
  induction l with
  | nil => intro a x hx; simp at hx
  | cons y l ih =>
    intro a x hx
    rcases List.mem_cons.mp hx with rfl | hx
    · exact le_trans (le_max_right a x) (foldl_max_init_le l (max a x))
    · exact ih (max a y) x hx

theorem foldl_max_eq_or_mem (l : List ℚ) : ∀ a : ℚ, l.foldl max a = a ∨ l.foldl max a ∈ l := by
  induction l with
  | nil => intro a; exact Or.inl rfl
  | cons y l ih =>
    intro a
    rcases ih (max a y) with h | h
    · rcases max_choice a y with hm | hm
      · left; rw [List.foldl_cons, h, hm]
      · right; rw [List.foldl_cons, h, hm]; exact List.mem_cons_self y l
    · right; exact List.mem_cons_of_mem y h

theorem foldl_min_le_init (l : List ℚ) : ∀ a : ℚ, l.foldl min a ≤ a := by
  induction l with
  | nil => intro a; exact le_refl a
  | cons x l ih => intro a; exact le_trans (ih (min a x)) (min_le_left a x)

theorem foldl_min_le_mem (l : List ℚ) : ∀ (a x : ℚ), x ∈ l → l.foldl min a ≤ x := by
  induction l with
  | nil => intro a x hx; simp at hx
  | cons y l ih =>
    intro a x hx
    rcases List.mem_cons.mp hx with rfl | hx
    · exact le_trans (foldl_min_le_init l (min a x)) (min_le_right a x)
    · exact ih (min a y) x hx

theorem foldl_min_eq_or_mem (l : List ℚ) : ∀ a : ℚ, l.foldl min a = a ∨ l.foldl min a ∈ l := by
  induction l with
  | nil => intro a; exact Or.inl rfl
  | cons y l ih =>
    intro a
    rcases ih (min a y) with h | h
    · rcases min_choice a y with hm | hm
      · left; rw [List.foldl_cons, h, hm]
      · right; rw [List.foldl_cons, h, hm]; exact List.mem_cons_self y l
    · right; exact List.mem_cons_of_mem y h

/-- The running maximum from -1 of a non-empty list of in-range values is one of
them. -/
theorem foldl_max_mem_validVals (l : List Dbl) (hne : validVals l ≠ []) :
    (validVals l).foldl max (-1) ∈ validVals l := by
  rcases foldl_max_eq_or_mem (validVals l) (-1) with h | h
  · exfalso
    obtain ⟨x, hx⟩ := List.exists_mem_of_ne_nil _ hne
    have h1 := foldl_max_mem_le (validVals l) (-1) x hx
    have h2 := (mem_validVals.mp hx).2.1
    rw [h] at h1
    linarith
  · exact h

/-- The running minimum from 11 of a non-empty list of in-range values is one of
them. -/
theorem foldl_min_mem_validVals (l : List Dbl) (hne : validVals l ≠ []) :
    (validVals l).foldl min 11 ∈ validVals l := by
  rcases foldl_min_eq_or_mem (validVals l) 11 with h | h
  · exfalso
    obtain ⟨x, hx⟩ := List.exists_mem_of_ne_nil _ hne
    have h1 := foldl_min_le_mem (validVals l) 11 x hx
    have h2 := (mem_validVals.mp hx).2.2
    rw [h] at h1
    linarith
  · exact h

/-! ## Class statistics: the claims -/

/-- C6: for a `count` that is zero or negative `calculate_class_statistics`
returns the record of average 0.0, highest -1.0, lowest 11.0 and both counters
0, for every array: the empty one included, of which no element can be
read. -/
theorem class_statistics_nonpositive_count (grades : List Dbl) (count : Int)
    (h : count ≤ 0) :
    calculate_class_statistics grades count =
      some ⟨Dbl.fin 0, Dbl.fin (-1), Dbl.fin 11, 0, 0⟩ := by
  simp [calculate_class_statistics, h]

/-- The empty array with `count` 0. -/
theorem class_statistics_nonpositive_count_witness :
    (0 : Int) ≤ 0 ∧
    calculate_class_statistics [] 0 = some ⟨Dbl.fin 0, Dbl.fin (-1), Dbl.fin 11, 0, 0⟩ :=
  ⟨le_refl 0, class_statistics_nonpositive_count [] 0 (le_refl 0)⟩

/-- C7: for a positive `count` within the array, `total_students` is the number
of entries among the first `count` that lie within 0 and 10, not `count`. -/
theorem class_statistics_total_students (grades : List Dbl) (count : Int)
    (h0 : 0 < count) (hlen : count ≤ grades.length) :
    ∃ s, calculate_class_statistics grades count = some s ∧
      s.total_students = (((firstEntries grades count).filter Dbl.inRange).length : Int) := by
  refine ⟨_, class_statistics_eq grades count h0 hlen, ?_⟩
  simp only [validVals_length]

/-- Three entries scanned out of four, one of them in range: `total_students`
is 1, not 3. -/
theorem class_statistics_total_students_witness :
    ∃ s, calculate_class_statistics [Dbl.fin 3, Dbl.fin 11, Dbl.nan, Dbl.fin 10] 3 = some s ∧
      s.total_students = 1 := by
  obtain ⟨s, hs, ht⟩ := class_statistics_total_students
    [Dbl.fin 3, Dbl.fin 11, Dbl.nan, Dbl.fin 10] 3 (by decide) (by simp)
  refine ⟨s, hs, ?_⟩
  rw [ht]
  norm_num [firstEntries, List.filter, Dbl.inRange]

/-- C8, as amended: for a positive `count` within the array, `average` is the
sum of the entries among the first `count` that lie within 0 and 10,
accumulated from 0.0 in index order with each addition rounded to double,
divided by their number (the quotient rounded to double) when there is one, and
stays 0.0 when there is none. -/
theorem class_statistics_average (grades : List Dbl) (count : Int)
    (h0 : 0 < count) (hlen : count ≤ grades.length) :
    ∃ s, calculate_class_statistics grades count = some s ∧
      (0 < ((firstEntries grades count).filter Dbl.inRange).length →
        s.average = Dbl.div (runningSum ((firstEntries grades count).filter Dbl.inRange))
          (Dbl.ofInt (((firstEntries grades count).filter Dbl.inRange).length : Int))) ∧
      (((firstEntries grades count).filter Dbl.inRange).length = 0 →
        s.average = Dbl.fin 0) := by
  refine ⟨_, class_statistics_eq grades count h0 hlen, ?_, ?_⟩
  · intro hv
    simp only [validVals_length, if_pos hv]
  · intro hv
    simp only [validVals_length, hv, lt_irrefl, if_false]

/-- The in-range entries 4.0 and 9.0 among the first three give the average
6.5; three entries equal to the double nearest to 0.1 give
0.10000000000000002. -/
theorem class_statistics_average_witness :
    (∃ s, calculate_class_statistics [Dbl.fin 4, Dbl.fin (-2), Dbl.fin 9, Dbl.fin 1] 3 = some s ∧
      s.average = Dbl.fin (13/2)) ∧
    (∃ s, calculate_class_statistics
        [Dbl.fin (3602879701896397 / 36028797018963968),
          Dbl.fin (3602879701896397 / 36028797018963968),
          Dbl.fin (3602879701896397 / 36028797018963968)] 3 = some s ∧
      s.average = Dbl.fin (7205759403792795 / 72057594037927936)) := by
  constructor
  · obtain ⟨s, hs, ha, _⟩ := class_statistics_average
      [Dbl.fin 4, Dbl.fin (-2), Dbl.fin 9, Dbl.fin 1] 3 (by decide) (by simp)
    refine ⟨s, hs, ?_⟩
    rw [ha (by decide!)]
    decide!
  · obtain ⟨s, hs, ha, _⟩ := class_statistics_average
      [Dbl.fin (3602879701896397 / 36028797018963968),
        Dbl.fin (3602879701896397 / 36028797018963968),
        Dbl.fin (3602879701896397 / 36028797018963968)] 3 (by decide) (by simp)
    refine ⟨s, hs, ?_⟩
    rw [ha (by decide!)]
    decide!

/-- Three entries equal to the double nearest to 0.1, scanned whole. -/
theorem class_statistics_tenths :
    calculate_class_statistics
        [Dbl.fin (3602879701896397 / 36028797018963968),
          Dbl.fin (3602879701896397 / 36028797018963968),
          Dbl.fin (3602879701896397 / 36028797018963968)] 3 =
      some ⟨Dbl.fin (7205759403792795 / 72057594037927936),
        Dbl.fin (3602879701896397 / 36028797018963968),
        Dbl.fin (3602879701896397 / 36028797018963968), 3, 0⟩ := by
  decide!

/-- C8, as stated, fails under double rounding: on three entries equal to the
double nearest to 0.1 the `average` is 0.10000000000000002, not their
real-number sum divided by 3, which is the entry itself. -/
theorem class_statistics_average_not_exact :
    Dbl.round64 (1 / 10) = Dbl.fin (3602879701896397 / 36028797018963968) ∧
    ∃ s, calculate_class_statistics
        [Dbl.fin (3602879701896397 / 36028797018963968),
          Dbl.fin (3602879701896397 / 36028797018963968),
          Dbl.fin (3602879701896397 / 36028797018963968)] 3 = some s ∧
      0 < ((firstEntries [Dbl.fin (3602879701896397 / 36028797018963968),
          Dbl.fin (3602879701896397 / 36028797018963968),
          Dbl.fin (3602879701896397 / 36028797018963968)] 3).filter Dbl.inRange).length ∧
      s.average = Dbl.fin (7205759403792795 / 72057594037927936) ∧
      s.average ≠ Dbl.fin ((validVals (firstEntries
          [Dbl.fin (3602879701896397 / 36028797018963968),
            Dbl.fin (3602879701896397 / 36028797018963968),
            Dbl.fin (3602879701896397 / 36028797018963968)] 3)).sum /
        ((firstEntries [Dbl.fin (3602879701896397 / 36028797018963968),
          Dbl.fin (3602879701896397 / 36028797018963968),
          Dbl.fin (3602879701896397 / 36028797018963968)] 3).filter Dbl.inRange).length) :=
  ⟨by decide!, _, class_statistics_tenths, by decide!, rfl, by decide!⟩

/-- C9: for a positive `count` within the array with at least one of the first
`count` entries within 0 and 10, `highest` and `lowest` are on return entries
among the first `count` that lie within 0 and 10, and every such entry is
between `lowest` and `highest`; and the sentinels -1.0 and 11.0 are replaced by
the first valid value: after the scan up to the first in-range entry, `highest`
and `lowest` are both that entry. -/
theorem class_statistics_highest_lowest (grades : List Dbl) (count : Int)
    (h0 : 0 < count) (hlen : count ≤ grades.length)
    (hex : ∃ g ∈ firstEntries grades count, g.inRange = true) :
    (∃ s, calculate_class_statistics grades count = some s ∧
      s.highest ∈ firstEntries grades count ∧ s.highest.inRange = true ∧
      s.lowest ∈ firstEntries grades count ∧ s.lowest.inRange = true ∧
      ∀ g ∈ firstEntries grades count, g.inRange = true →
        Dbl.le s.lowest g = true ∧ Dbl.le g s.highest = true) ∧
    (∀ (k : Nat) (g : Dbl), (k : Int) < count → grades[k]? = some g → g.inRange = true →
      (∀ e ∈ grades.take k, e.inRange = false) →
      ∃ s, calculate_class_statistics grades (k + 1) = some s ∧
        s.highest = g ∧ s.lowest = g) := by
  constructor
  · refine ⟨_, class_statistics_eq grades count h0 hlen, ?_⟩
    obtain ⟨g0, hg0, hr0⟩ := hex
    have hne : validVals (firstEntries grades count) ≠ [] := by
      intro hnil
      have hm : g0.val ∈ validVals (firstEntries grades count) := by
        rw [mem_validVals, ← Dbl.eq_fin_of_inRange hr0]
        refine ⟨hg0, ?_⟩
        have h2 := hr0
        rw [Dbl.eq_fin_of_inRange hr0] at h2
        simpa [Dbl.inRange] using h2
      rw [hnil] at hm
      simp at hm
    have hmax := mem_validVals.mp (foldl_max_mem_validVals _ hne)
    have hmin := mem_validVals.mp (foldl_min_mem_validVals _ hne)
    refine ⟨hmax.1, by simp [Dbl.inRange, hmax.2.1, hmax.2.2], hmin.1,
      by simp [Dbl.inRange, hmin.2.1, hmin.2.2], ?_⟩
    intro g hg hr
    have hq := Dbl.eq_fin_of_inRange hr
    have hm : g.val ∈ validVals (firstEntries grades count) := by
      rw [mem_validVals, ← hq]
      refine ⟨hg, ?_⟩
      have h2 := hr
      rw [hq] at h2
      simpa [Dbl.inRange] using h2
    rw [hq]
    simp only [Dbl.le, decide_eq_true_eq]
    exact ⟨foldl_min_le_mem _ 11 _ hm, foldl_max_mem_le _ (-1) _ hm⟩
  · intro k g _ hk hr hnone
    have hkl : k < grades.length := by
      rcases Nat.lt_or_ge k grades.length with h | h
      · exact h
      · rw [List.getElem?_eq_none h] at hk; simp at hk
    have hcount : ((k : Int) + 1) ≤ (grades.length : Int) := by exact_mod_cast hkl
    have hfirst : firstEntries grades ((k : Int) + 1) = grades.take k ++ [g] := by
      have : ((k : Int) + 1).toNat = k + 1 := by omega
      rw [firstEntries, this, List.take_succ, hk]
      rfl
    have hnil : validVals (grades.take k) = [] := by
      simp only [validVals, List.map_eq_nil_iff, List.filter_eq_nil_iff]
      intro e he
      simp [hnone e he]
    have hvals : validVals (firstEntries grades ((k : Int) + 1)) = [g.val] := by
      rw [hfirst, validVals_append_singleton, hnil, hr]
      rfl
    have hq : 0 ≤ g.val ∧ g.val ≤ 10 := by
      have h2 := hr
      rw [Dbl.eq_fin_of_inRange hr] at h2
      simpa [Dbl.inRange] using h2
    refine ⟨_, class_statistics_eq grades ((k : Int) + 1) (by omega) hcount, ?_, ?_⟩
    · simp only [hvals, List.foldl_cons, List.foldl_nil]
      rw [max_eq_right (by linarith [hq.1]), ← Dbl.eq_fin_of_inRange hr]
    · simp only [hvals, List.foldl_cons, List.foldl_nil]
      rw [min_eq_right (by linarith [hq.2]), ← Dbl.eq_fin_of_inRange hr]

/-- Five entries, the first in-range one at index 1: after two entries both
bounds are 6.0, and on return the bounds are 2.5 and 9.0. -/
theorem class_statistics_highest_lowest_witness :
    (∃ s, calculate_class_statistics
        [Dbl.fin 12, Dbl.fin 6, Dbl.fin 9, Dbl.nan, Dbl.fin (5/2)] 5 = some s ∧
      s.highest = Dbl.fin 9 ∧ s.lowest = Dbl.fin (5/2)) ∧
    (∃ s, calculate_class_statistics
        [Dbl.fin 12, Dbl.fin 6, Dbl.fin 9, Dbl.nan, Dbl.fin (5/2)] 2 = some s ∧
      s.highest = Dbl.fin 6 ∧ s.lowest = Dbl.fin 6) := by
  have hthm := class_statistics_highest_lowest
    [Dbl.fin 12, Dbl.fin 6, Dbl.fin 9, Dbl.nan, Dbl.fin (5/2)] 5 (by decide) (by simp)
    ⟨Dbl.fin 6, by simp [firstEntries], by norm_num [Dbl.inRange]⟩
  constructor
  · refine ⟨_, class_statistics_eq _ 5 (by decide) (by simp), ?_, ?_⟩ <;>
      norm_num [firstEntries, validVals, List.filter, Dbl.inRange, Dbl.val]
  · exact hthm.2 1 (Dbl.fin 6) (by decide) rfl (by norm_num [Dbl.inRange])
      (by norm_num [Dbl.inRange])

/-- C10: for a positive `count` within the array, `approved_count` is the
number of entries among the first `count` that lie within 0 and 10 and are at
least 7.0. -/
theorem class_statistics_approved_count (grades : List Dbl) (count : Int)
    (h0 : 0 < count) (hlen : count ≤ grades.length) :
    ∃ s, calculate_class_statistics grades count = some s ∧
      s.approved_count =
        (((firstEntries grades count).filter
          fun g => g.inRange && Dbl.ge g (Dbl.fin 7)).length : Int) := by
  refine ⟨_, class_statistics_eq grades count h0 hlen, ?_⟩
  simp only [approved_length]

/-- An entry equal to 7.0 is counted, entries above 10.0 or below 7.0 are
not. -/
theorem class_statistics_approved_count_witness :
    ∃ s, calculate_class_statistics
        [Dbl.fin 7, Dbl.fin 11, Dbl.fin (69/10), Dbl.pinf, Dbl.fin 10] 5 = some s ∧
      s.approved_count = 2 := by
  obtain ⟨s, hs, ha⟩ := class_statistics_approved_count
    [Dbl.fin 7, Dbl.fin 11, Dbl.fin (69/10), Dbl.pinf, Dbl.fin 10] 5 (by decide) (by simp)
  refine ⟨s, hs, ?_⟩
  rw [ha]
  norm_num [firstEntries, List.filter, Dbl.inRange, Dbl.ge, Dbl.le]

/-- C11, as amended: on the entries 5.0, 8.0, -2.0, 7.0 and 12.0 with `count`
5 the valid entries are 5.0, 8.0 and 7.0: `total_students` is 3, `average` is
the double nearest to 20/3 (6.666666666666667), `highest` is 8.0, `lowest` is
5.0 and `approved_count` is 2. -/
theorem class_statistics_sample :
    calculate_class_statistics
        [Dbl.fin 5, Dbl.fin 8, Dbl.fin (-2), Dbl.fin 7, Dbl.fin 12] 5 =
      some ⟨Dbl.fin (7505999378950827 / 1125899906842624), Dbl.fin 8, Dbl.fin 5, 3, 2⟩ ∧
    Dbl.round64 (20 / 3) = Dbl.fin (7505999378950827 / 1125899906842624) := by
  constructor <;> decide!

/-- C11, as stated, fails under double rounding: the `average` of the sample is
not the real number 20/3, which no double represents. -/
theorem class_statistics_sample_not_exact :
    calculate_class_statistics
        [Dbl.fin 5, Dbl.fin 8, Dbl.fin (-2), Dbl.fin 7, Dbl.fin 12] 5 ≠
      some ⟨Dbl.fin (20 / 3), Dbl.fin 8, Dbl.fin 5, 3, 2⟩ := by
  decide!

/-- C12: for a positive `count` within the array with none of the first `count`
entries within 0 and 10, the record returned has `highest` -1.0, `lowest` 11.0,
`average` 0.0 and both counters 0: the record returned for `count` 0. -/
theorem class_statistics_no_valid_entry (grades : List Dbl) (count : Int)
    (h0 : 0 < count) (hlen : count ≤ grades.length)
    (hnone : ∀ g ∈ firstEntries grades count, g.inRange = false) :
    calculate_class_statistics grades count =
        some ⟨Dbl.fin 0, Dbl.fin (-1), Dbl.fin 11, 0, 0⟩ ∧
      calculate_class_statistics grades count = calculate_class_statistics grades 0 := by
  have hnil : validVals (firstEntries grades count) = [] := by
    simp only [validVals, List.map_eq_nil_iff, List.filter_eq_nil_iff]
    intro e he
    simp [hnone e he]
  have hres : calculate_class_statistics grades count =
      some ⟨Dbl.fin 0, Dbl.fin (-1), Dbl.fin 11, 0, 0⟩ := by
    rw [class_statistics_eq grades count h0 hlen, hnil]
    simp
  refine ⟨hres, ?_⟩
  rw [hres]
  simp [calculate_class_statistics]

/-- Three entries out of range: one above 10, a NaN and a negative one. -/
theorem class_statistics_no_valid_entry_witness :
    calculate_class_statistics [Dbl.fin 11, Dbl.nan, Dbl.fin (-1)] 3 =
        some ⟨Dbl.fin 0, Dbl.fin (-1), Dbl.fin 11, 0, 0⟩ ∧
      calculate_class_statistics [Dbl.fin 11, Dbl.nan, Dbl.fin (-1)] 3 =
        calculate_class_statistics [Dbl.fin 11, Dbl.nan, Dbl.fin (-1)] 0 :=
  class_statistics_no_valid_entry [Dbl.fin 11, Dbl.nan, Dbl.fin (-1)] 3 (by decide) (by simp)
    (by
      intro g hg
      simp [firstEntries] at hg
      rcases hg with rfl | rfl | rfl
      · norm_num [Dbl.inRange]
      · rfl
      · norm_num [Dbl.inRange])

theorem validVals_filter_inRange (l : List Dbl) :
    validVals (l.filter Dbl.inRange) = validVals l := by
  simp [validVals, List.filter_filter]

/-- C13: entries outside 0 to 10 are excluded from all aggregates: for a
`count` from 0 up to the length of the array, `calculate_class_statistics`
returns the record it returns on the sub-sequence of the in-range entries among
the first `count`, scanned whole. -/
theorem class_statistics_filter_refinement (grades : List Dbl) (count : Int)
    (h0 : 0 ≤ count) (hlen : count ≤ grades.length) :
    ∃ s, calculate_class_statistics grades count = some s ∧
      calculate_class_statistics ((firstEntries grades count).filter Dbl.inRange)
        (((firstEntries grades count).filter Dbl.inRange).length : Int) = some s := by
  have hwhole : ∀ l : List Dbl, firstEntries l (l.length : Int) = l := by
    intro l
    simp [firstEntries]
  rcases eq_or_lt_of_le h0 with hz | hpos
  · subst hz
    refine ⟨_, early_return_eq grades 0 (le_refl 0), ?_⟩
    simp [firstEntries, calculate_class_statistics]
  · refine ⟨_, class_statistics_eq grades count hpos hlen, ?_⟩
    by_cases hf : ((firstEntries grades count).filter Dbl.inRange).length = 0
    · have hnil : (firstEntries grades count).filter Dbl.inRange = [] :=
        List.length_eq_zero.mp hf
      have hv : validVals (firstEntries grades count) = [] := by
        rw [validVals, hnil]; rfl
      rw [hnil, hv]
      simp [calculate_class_statistics]
    · rw [class_statistics_eq _ _ (by omega) (le_refl _), hwhole, validVals_filter_inRange,
        List.filter_filter]
      simp only [Bool.and_self]

/-- Of the first three entries 5.0, 12.0 and 8.0 the in-range ones are 5.0 and
8.0: the scan of three entries and the scan of these two give one record. -/
theorem class_statistics_filter_refinement_witness :
    ∃ s, calculate_class_statistics [Dbl.fin 5, Dbl.fin 12, Dbl.fin 8, Dbl.nan] 3 = some s ∧
      calculate_class_statistics [Dbl.fin 5, Dbl.fin 8] 2 = some s := by
  obtain ⟨s, h1, h2⟩ := class_statistics_filter_refinement
    [Dbl.fin 5, Dbl.fin 12, Dbl.fin 8, Dbl.nan] 3 (by decide) (by simp)
  have hf : (firstEntries [Dbl.fin 5, Dbl.fin 12, Dbl.fin 8, Dbl.nan] 3).filter Dbl.inRange =
      [Dbl.fin 5, Dbl.fin 8] := by
    norm_num [firstEntries, List.filter, Dbl.inRange]
  rw [hf] at h2
  exact ⟨s, h1, h2⟩

/-- C14: `calculate_class_statistics` scans only the first `count` entries: for
a positive `count`, two arrays of at least `count` entries that agree on their
first `count` entries give one record, and so does the array cut after `count`
entries, where a read at any further index would have no result. -/
theorem class_statistics_frame (grades other : List Dbl) (count : Int)
    (h0 : 0 < count) (hlen : count ≤ grades.length) (hlen2 : count ≤ other.length)
    (hagree : firstEntries grades count = firstEntries other count) :
    ∃ s, calculate_class_statistics grades count = some s ∧
      calculate_class_statistics other count = some s ∧
      calculate_class_statistics (firstEntries grades count) count = some s := by
  refine ⟨_, class_statistics_eq grades count h0 hlen, ?_, ?_⟩
  · rw [class_statistics_eq other count h0 hlen2, hagree]
  · have hl : (count : Int) ≤ ((firstEntries grades count).length : Int) := by
      have hn : count.toNat ≤ grades.length := by omega
      rw [firstEntries, List.length_take, Nat.min_eq_left hn]
      omega
    have hidem : firstEntries (firstEntries grades count) count = firstEntries grades count := by
      simp [firstEntries, List.take_take]
    rw [class_statistics_eq _ count h0 hl, hidem]

/-- Two arrays that agree on their first two entries and differ after. -/
theorem class_statistics_frame_witness :
    ∃ s, calculate_class_statistics [Dbl.fin 6, Dbl.fin 9, Dbl.fin 1] 2 = some s ∧
      calculate_class_statistics [Dbl.fin 6, Dbl.fin 9, Dbl.nan, Dbl.fin 10] 2 = some s ∧
      calculate_class_statistics [Dbl.fin 6, Dbl.fin 9] 2 = some s :=
  class_statistics_frame [Dbl.fin 6, Dbl.fin 9, Dbl.fin 1]
    [Dbl.fin 6, Dbl.fin 9, Dbl.nan, Dbl.fin 10] 2 (by decide) (by simp) (by simp) rfl

/-! ## Final grade and status together -/

/-- C15: the status of the final grade is "em_andamento" exactly when fewer
than two of the four grades are counted; a negative final grade is the sentinel
-1.0, and with two counted grades or more the final grade is not negative. -/
theorem final_grade_in_progress_iff (np1 np2 ava pim : Grade) :
    (get_student_status (calculate_final_grade np1 np2 ava pim) = "em_andamento" ↔
      countedNum [np1, np2, ava, pim] < 2) ∧
    (Dbl.lt (calculate_final_grade np1 np2 ava pim) (Dbl.ofInt 0) = true →
      calculate_final_grade np1 np2 ava pim = Dbl.fin (-1)) ∧
    (2 ≤ countedNum [np1, np2, ava, pim] →
      Dbl.lt (calculate_final_grade np1 np2 ava pim) (Dbl.ofInt 0) = false) := by
  rcases final_grade_cases np1 np2 ava pim with ⟨hc, hres⟩ | ⟨hc, r, hres, hr0, _⟩
  · rw [hres]
    refine ⟨⟨fun _ => hc, fun _ => ?_⟩, fun _ => rfl, fun h2 => absurd hc (Nat.not_lt.mpr h2)⟩
    norm_num [get_student_status, Dbl.lt, Dbl.ofInt]
  · have hneg : ¬ r < 0 := not_lt.mpr hr0
    rw [hres]
    refine ⟨⟨fun h => ?_, fun h => absurd h (Nat.not_lt.mpr hc)⟩, fun h => ?_, fun _ => ?_⟩
    · exfalso
      simp only [get_student_status, Dbl.lt, Dbl.ofInt, Int.cast_zero, decide_eq_true_eq,
        if_neg hneg] at h
      split_ifs at h <;> simp at h
    · simp [Dbl.lt, Dbl.ofInt, hneg] at h
    · simp [Dbl.lt, Dbl.ofInt, hneg]

/-- C16: `calculate_final_grade` returns -1.0 or a value from 0 to 20; four
valid grades of 10.0 give 20.0, which `validate_grade` rejects, and four valid
grades of 3.5, each below 5.0, give 7.0 and the status "aprovado". -/
theorem final_grade_range :
    (∀ np1 np2 ava pim : Grade,
      calculate_final_grade np1 np2 ava pim = Dbl.fin (-1) ∨
      ∃ q : ℚ, calculate_final_grade np1 np2 ava pim = Dbl.fin q ∧ 0 ≤ q ∧ q ≤ 20) ∧
    calculate_final_grade ⟨Dbl.fin 10, 1⟩ ⟨Dbl.fin 10, 1⟩ ⟨Dbl.fin 10, 1⟩ ⟨Dbl.fin 10, 1⟩ =
      Dbl.fin 20 ∧
    validate_grade (Dbl.fin 20) = 0 ∧
    Dbl.lt (Dbl.fin (7/2)) (Dbl.fin 5) = true ∧
    calculate_final_grade ⟨Dbl.fin (7/2), 1⟩ ⟨Dbl.fin (7/2), 1⟩ ⟨Dbl.fin (7/2), 1⟩
      ⟨Dbl.fin (7/2), 1⟩ = Dbl.fin 7 ∧
    get_student_status (calculate_final_grade ⟨Dbl.fin (7/2), 1⟩ ⟨Dbl.fin (7/2), 1⟩
      ⟨Dbl.fin (7/2), 1⟩ ⟨Dbl.fin (7/2), 1⟩) = "aprovado" := by
  have h35 : calculate_final_grade ⟨Dbl.fin (7/2), 1⟩ ⟨Dbl.fin (7/2), 1⟩ ⟨Dbl.fin (7/2), 1⟩
      ⟨Dbl.fin (7/2), 1⟩ = Dbl.fin 7 := by
    decide!
  refine ⟨fun np1 np2 ava pim => ?_, ?_, ?_, ?_, h35, ?_⟩
  · rcases final_grade_cases np1 np2 ava pim with ⟨_, hres⟩ | ⟨_, r, hres, hr0, hr20⟩
    · exact Or.inl hres
    · exact Or.inr ⟨r, hres, hr0, hr20⟩
  · decide!
  · norm_num [validate_grade, Dbl.ge, Dbl.le, Dbl.isnan, Dbl.isinf]
  · norm_num [Dbl.lt]
  · rw [h35]
    norm_num [get_student_status, Dbl.lt, Dbl.ge, Dbl.le, Dbl.ofInt]

/-! ## Class statistics: counters and order -/

/-- C18: for every `count` up to the length of the array the record returned
has 0 ≤ `approved_count` ≤ `total_students` ≤ max(`count`, 0), and a positive
`approved_count` comes with a `highest` of at least 7.0. -/
theorem class_statistics_counters (grades : List Dbl) (count : Int)
    (hlen : count ≤ grades.length) :
    ∃ s, calculate_class_statistics grades count = some s ∧
      0 ≤ s.approved_count ∧ s.approved_count ≤ s.total_students ∧
      s.total_students ≤ max count 0 ∧
      (0 < s.approved_count → Dbl.ge s.highest (Dbl.fin 7) = true) := by
  by_cases h0 : count ≤ 0
  · refine ⟨_, early_return_eq grades count h0, le_refl 0, le_refl 0, ?_, ?_⟩
    · exact le_max_right count 0
    · intro h
      exact absurd h (lt_irrefl 0)
  · have hpos : 0 < count := lt_of_not_le h0
    refine ⟨_, class_statistics_eq grades count hpos hlen, ?_, ?_, ?_, ?_⟩
    · exact Int.natCast_nonneg _
    · show ((List.filter _ _).length : Int) ≤ ((validVals _).length : Int)
      exact_mod_cast List.length_filter_le _ _
    · have h1 : (validVals (firstEntries grades count)).length ≤ count.toNat := by
        rw [validVals_length]
        refine le_trans (List.length_filter_le _ _) ?_
        rw [firstEntries, List.length_take]
        exact Nat.min_le_left _ _
      have h2 : ((validVals (firstEntries grades count)).length : Int) ≤ count := by omega
      exact le_trans h2 (le_max_left count 0)
    · intro h
      have hlenpos : 0 < ((validVals (firstEntries grades count)).filter fun q => 7 ≤ q).length := by
        have h2 : (0 : Int) <
            ((((validVals (firstEntries grades count)).filter fun q => 7 ≤ q).length : Nat) : Int) := h
        exact_mod_cast h2
      obtain ⟨x, hx⟩ := List.exists_mem_of_length_pos hlenpos
      rw [List.mem_filter] at hx
      have h7 : (7 : ℚ) ≤ x := by simpa using hx.2
      have hmax := foldl_max_mem_le (validVals (firstEntries grades count)) (-1) x hx.1
      simp only [Dbl.ge, Dbl.le, decide_eq_true_eq]
      exact le_trans h7 hmax

/-- Three entries, of which two are in range and one is at least 7.0. -/
theorem class_statistics_counters_witness :
    ∃ s, calculate_class_statistics [Dbl.fin 8, Dbl.fin 3, Dbl.fin 11] 3 = some s ∧
      0 ≤ s.approved_count ∧ s.approved_count ≤ s.total_students ∧
      s.total_students ≤ max 3 0 ∧
      (0 < s.approved_count → Dbl.ge s.highest (Dbl.fin 7) = true) :=
  class_statistics_counters [Dbl.fin 8, Dbl.fin 3, Dbl.fin 11] 3 (by simp)

theorem validVals_perm {l p : List Dbl} (hp : p.Perm l) : (validVals p).Perm (validVals l) :=
  (hp.filter _).map _

/-- C19: over exact arithmetic the record does not depend on the order of the
entries: an array scanned whole and any permutation of it scanned whole give
one record. -/
theorem class_statistics_perm (grades p : List Dbl) (hp : p.Perm grades) :
    ∃ s, calculate_class_statistics_exact grades (grades.length : Int) = some s ∧
      calculate_class_statistics_exact p (grades.length : Int) = some s := by
  have hwhole : ∀ l : List Dbl, firstEntries l (l.length : Int) = l := by
    intro l
    simp [firstEntries]
  have hlp : p.length = grades.length := hp.length_eq
  by_cases h0 : grades.length = 0
  · have hg : grades = [] := List.length_eq_zero.mp h0
    subst hg
    have hpn : p = [] := List.Perm.eq_nil hp
    subst hpn
    exact ⟨_, rfl, rfl⟩
  · have hpos : (0 : Int) < (grades.length : Int) := by omega
    have hv := validVals_perm hp
    refine ⟨_, class_statistics_exact_eq grades _ hpos (le_refl _), ?_⟩
    rw [← hlp, class_statistics_exact_eq p _ (by omega) (le_refl _), hwhole p]
    rw [hlp, hwhole grades]
    have hmax : (validVals p).foldl max (-1) = (validVals grades).foldl max (-1) :=
      @List.Perm.foldl_eq ℚ ℚ max _ _ ⟨Max.right_comm⟩ hv (-1)
    have hmin : (validVals p).foldl min 11 = (validVals grades).foldl min 11 :=
      @List.Perm.foldl_eq ℚ ℚ min _ _ ⟨min_right_comm⟩ hv 11
    rw [hmax, hmin, hv.sum_eq, hv.length_eq, (hv.filter _).length_eq]

/-- The entries 9.0, 4.0, 12.0 and 7.0 and a rearrangement of them. -/
theorem class_statistics_perm_witness :
    ∃ s, calculate_class_statistics_exact [Dbl.fin 9, Dbl.fin 4, Dbl.fin 12, Dbl.fin 7] 4 = some s ∧
      calculate_class_statistics_exact [Dbl.fin 12, Dbl.fin 7, Dbl.fin 9, Dbl.fin 4] 4 = some s :=
  class_statistics_perm [Dbl.fin 9, Dbl.fin 4, Dbl.fin 12, Dbl.fin 7]
    [Dbl.fin 12, Dbl.fin 7, Dbl.fin 9, Dbl.fin 4] (by decide)

/-! ## Class statistics: the bounds of the record -/

/-- The rounded average of in-range entries is a finite value between 0 and
10, for a number of entries within the range of a C `int`. -/
theorem average_bounds (l : List Dbl) (hpos : 0 < (l.filter Dbl.inRange).length)
    (hlen : (l.length : Int) ≤ INT_MAX) :
    ∃ r : ℚ, Dbl.div (runningSum (l.filter Dbl.inRange))
        (Dbl.ofInt ((l.filter Dbl.inRange).length : Int)) = Dbl.fin r ∧ 0 ≤ r ∧ r ≤ 10 := by
  have hle : (l.filter Dbl.inRange).length ≤ l.length := List.length_filter_le _ _
  have hmax : l.length ≤ 2147483647 := by
    have h1 : (l.length : Int) ≤ 2147483647 := hlen
    omega
  obtain ⟨S, hS, hS0, hSN⟩ := runningSum_bounds (l.filter Dbl.inRange)
    (fun g hg => (List.mem_filter.mp hg).2) (by norm_num; omega)
  have hn : (0 : ℚ) < (((l.filter Dbl.inRange).length : Int) : ℚ) := by exact_mod_cast hpos
  obtain ⟨r, hr, hr0, hr10⟩ := Dbl.div_bounds S (((l.filter Dbl.inRange).length : Int) : ℚ) 10
    hn hS0 (by push_cast at hSN ⊢; linarith) (by norm_num)
  refine ⟨r, ?_, hr0, by simpa using hr10⟩
  rw [hS]
  exact hr

theorem list_sum_bounds (l : List ℚ) (lo hi : ℚ) (h : ∀ x ∈ l, lo ≤ x ∧ x ≤ hi) :
    lo * (l.length : ℚ) ≤ l.sum ∧ l.sum ≤ hi * (l.length : ℚ) := by
  induction l with
  | nil => simp
  | cons x l ih =>
    have hx := h x (List.mem_cons_self x l)
    have hl := ih fun y hy => h y (List.mem_cons_of_mem x hy)
    simp only [List.sum_cons, List.length_cons, Nat.cast_add, Nat.cast_one]
    constructor <;> nlinarith [hx.1, hx.2, hl.1, hl.2]

/-- The running minimum and maximum of a non-empty list of in-range values:
both within 0 and 10, in this order, with the mean between them. -/
theorem validVals_extremes (l : List Dbl) (hne : validVals l ≠ []) :
    0 ≤ (validVals l).foldl min 11 ∧
      (validVals l).foldl min 11 ≤ (validVals l).sum / ((validVals l).length : ℚ) ∧
      (validVals l).sum / ((validVals l).length : ℚ) ≤ (validVals l).foldl max (-1) ∧
      (validVals l).foldl min 11 ≤ (validVals l).foldl max (-1) ∧
      (validVals l).foldl max (-1) ≤ 10 := by
  have hmax := mem_validVals.mp (foldl_max_mem_validVals l hne)
  have hmin := mem_validVals.mp (foldl_min_mem_validVals l hne)
  have hn : (0 : ℚ) < ((validVals l).length : ℚ) := by
    exact_mod_cast List.length_pos.mpr hne
  have hb := list_sum_bounds (validVals l) ((validVals l).foldl min 11)
    ((validVals l).foldl max (-1))
    fun x hx => ⟨foldl_min_le_mem _ 11 x hx, foldl_max_mem_le _ (-1) x hx⟩
  obtain ⟨x, hx⟩ := List.exists_mem_of_ne_nil _ hne
  refine ⟨hmin.2.1, ?_, ?_, ?_, hmax.2.2⟩
  · rw [le_div_iff₀ hn]
    exact hb.1
  · rw [div_le_iff₀ hn]
    exact hb.2
  · exact le_trans (foldl_min_le_mem _ 11 x hx) (foldl_max_mem_le _ (-1) x hx)

/-- C17, as amended: for a positive `count` within the array (and within the
range of a C `int`) and a positive `total_students`, the record returned has
0.0 ≤ `lowest` ≤ `highest` ≤ 10.0 and 0.0 ≤ `average` ≤ 10.0; over exact
arithmetic it has 0.0 ≤ `lowest` ≤ `average` ≤ `highest` ≤ 10.0. -/
theorem class_statistics_bounds (grades : List Dbl) (count : Int) (h0 : 0 < count)
    (hlen : count ≤ grades.length) (hint : count ≤ INT_MAX) :
    (∃ s, calculate_class_statistics grades count = some s ∧
      (0 < s.total_students →
        Dbl.le (Dbl.fin 0) s.lowest = true ∧ Dbl.le s.lowest s.highest = true ∧
        Dbl.le s.highest (Dbl.fin 10) = true ∧
        Dbl.le (Dbl.fin 0) s.average = true ∧ Dbl.le s.average (Dbl.fin 10) = true)) ∧
    (∃ s, calculate_class_statistics_exact grades count = some s ∧
      (0 < s.total_students →
        Dbl.le (Dbl.fin 0) s.lowest = true ∧ Dbl.le s.lowest s.average = true ∧
        Dbl.le s.average s.highest = true ∧ Dbl.le s.highest (Dbl.fin 10) = true)) := by
  constructor
  · refine ⟨_, class_statistics_eq grades count h0 hlen, fun hpos => ?_⟩
    have hpos2 : 0 < (validVals (firstEntries grades count)).length := by
      have h2 : (0 : Int) < ((validVals (firstEntries grades count)).length : Int) := hpos
      exact_mod_cast h2
    have hb := validVals_extremes _ (List.ne_nil_of_length_pos hpos2)
    have hfl : ((firstEntries grades count).length : Int) ≤ INT_MAX := by
      have h1 : (firstEntries grades count).length ≤ count.toNat := by
        rw [firstEntries, List.length_take]
        exact Nat.min_le_left _ _
      have h2 : ((firstEntries grades count).length : Int) ≤ count := by omega
      exact le_trans h2 hint
    obtain ⟨r, hr, hr0, hr10⟩ := average_bounds (firstEntries grades count)
      (by rw [← validVals_length]; exact hpos2) hfl
    rw [← validVals_length] at hr
    simp only [if_pos hpos2, hr, Dbl.le, decide_eq_true_eq]
    exact ⟨hb.1, hb.2.2.2.1, hb.2.2.2.2, hr0, hr10⟩
  · refine ⟨_, class_statistics_exact_eq grades count h0 hlen, fun hpos => ?_⟩
    have hpos2 : 0 < (validVals (firstEntries grades count)).length := by
      have h2 : (0 : Int) < ((validVals (firstEntries grades count)).length : Int) := hpos
      exact_mod_cast h2
    have hb := validVals_extremes _ (List.ne_nil_of_length_pos hpos2)
    simp only [if_pos hpos2, Dbl.le, decide_eq_true_eq]
    exact ⟨hb.1, hb.2.1, hb.2.2.1, hb.2.2.2.2⟩

/-- The entries 4.0, 9.0 and 12.0 scanned whole. -/
theorem class_statistics_bounds_witness :
    (∃ s, calculate_class_statistics [Dbl.fin 4, Dbl.fin 9, Dbl.fin 12] 3 = some s ∧
      (0 < s.total_students →
        Dbl.le (Dbl.fin 0) s.lowest = true ∧ Dbl.le s.lowest s.highest = true ∧
        Dbl.le s.highest (Dbl.fin 10) = true ∧
        Dbl.le (Dbl.fin 0) s.average = true ∧ Dbl.le s.average (Dbl.fin 10) = true)) ∧
    (∃ s, calculate_class_statistics_exact [Dbl.fin 4, Dbl.fin 9, Dbl.fin 12] 3 = some s ∧
      (0 < s.total_students →
        Dbl.le (Dbl.fin 0) s.lowest = true ∧ Dbl.le s.lowest s.average = true ∧
        Dbl.le s.average s.highest = true ∧ Dbl.le s.highest (Dbl.fin 10) = true)) :=
  class_statistics_bounds [Dbl.fin 4, Dbl.fin 9, Dbl.fin 12] 3 (by decide) (by simp)
    (by decide)

/-- Six entries equal to the double nearest to 0.1, scanned whole. -/
theorem class_statistics_six_tenths :
    calculate_class_statistics
        [Dbl.fin (3602879701896397 / 36028797018963968),
          Dbl.fin (3602879701896397 / 36028797018963968),
          Dbl.fin (3602879701896397 / 36028797018963968),
          Dbl.fin (3602879701896397 / 36028797018963968),
          Dbl.fin (3602879701896397 / 36028797018963968),
          Dbl.fin (3602879701896397 / 36028797018963968)] 6 =
      some ⟨Dbl.fin (7205759403792793 / 72057594037927936),
        Dbl.fin (3602879701896397 / 36028797018963968),
        Dbl.fin (3602879701896397 / 36028797018963968), 6, 0⟩ := by
  decide!

/-- C17, as stated, fails under double rounding on both sides of `average`:
three entries equal to the double nearest to 0.1 give an `average` one unit in
the last place above `highest`, and six such entries give an `average` one unit
in the last place below `lowest`. -/
theorem class_statistics_average_outside :
    Dbl.round64 (1 / 10) = Dbl.fin (3602879701896397 / 36028797018963968) ∧
    (∃ s, calculate_class_statistics
        [Dbl.fin (3602879701896397 / 36028797018963968),
          Dbl.fin (3602879701896397 / 36028797018963968),
          Dbl.fin (3602879701896397 / 36028797018963968)] 3 = some s ∧
      0 < s.total_students ∧ Dbl.le s.average s.highest = false) ∧
    (∃ s, calculate_class_statistics
        [Dbl.fin (3602879701896397 / 36028797018963968),
          Dbl.fin (3602879701896397 / 36028797018963968),
          Dbl.fin (3602879701896397 / 36028797018963968),
          Dbl.fin (3602879701896397 / 36028797018963968),
          Dbl.fin (3602879701896397 / 36028797018963968),
          Dbl.fin (3602879701896397 / 36028797018963968)] 6 = some s ∧
      0 < s.total_students ∧ Dbl.le s.lowest s.average = false) :=
  ⟨by decide!, ⟨_, class_statistics_tenths, by decide, by decide!⟩,
    ⟨_, class_statistics_six_tenths, by decide, by decide!⟩⟩

end GradeCalculator
